import Mathlib

/-!
Shallow embedding of the `defi-sim` concentrated-liquidity pool
(`src/concentrated-liquidity-pool.ts`, `src/concentrated-liquidity-position.ts`,
`src/utils.ts`, `src/common.types.ts`) over exact rational arithmetic.

JavaScript numbers are modelled as `ℚ`; prices are tracked in square-root
space exactly as in the source (`sqrtPrice`), so operations that take a
price-space argument and immediately apply `Math.sqrt` (`movePrice`) are
embedded at the square-root level.  The mutable `this` of the TS classes is
threaded explicitly: every mutating operation returns its result together
with the final pool state, and a thrown `Error` becomes an `Except` error
value paired with the pool state at the moment of the throw (the source
mutates `this` in place, so partial mutations survive a throw).  The
unbounded `while` loops of the trade primitives are given explicit fuel;
`none` means the fuel ran out and says nothing about the source's behaviour.
-/

/-- `Balance` from `common.types.ts`: a pair of token amounts. -/
structure Balance where
  x : ℚ
  y : ℚ
deriving DecidableEq, Repr

/-- `Direction` enum from `common.types.ts`. -/
inductive Direction where
  | UP
  | DOWN
deriving DecidableEq, Repr

/-- The `token: "x" | "y"` parameter of `addFeesToPositions`. -/
inductive Token where
  | x
  | y
deriving DecidableEq, Repr

/-- The distinct `throw Error(...)` sites of the source, named after the
error taxonomy of the specification (§7). -/
inductive PoolError where
  /-- "Can't sell a negative amount" / "Can't buy a negative amount" -/
  | invalidArgument
  /-- "Position doesn't exist" -/
  | notFound
  /-- "Out of range, no liquidity." -/
  | outOfRange
  /-- "Not enough liquidity." -/
  | insufficientLiquidity
deriving DecidableEq, Repr

/-- `ConcentratedLiquidityPosition` (`concentrated-liquidity-position.ts`):
id, immutable `sqrtRange` and `liquidity`, mutable accrued `rewards`.
Ids are modelled as naturals instead of UUID strings.  The derived `balance`
getter is `positionBalance` below; `initialBalance` is a constructor-time
snapshot used for reference only and is not needed by any claim. -/
structure Position where
  id : ℕ
  sqrtRange : ℚ × ℚ
  liquidity : ℚ
  rewards : Balance
deriving DecidableEq, Repr

/-- `ConcentratedLiquidityPool` state: the position map (modelled as a list
of positions, the insertion order of the `Map`), the current `sqrtPrice`
and the fixed `feeRate`. -/
structure Pool where
  positions : List Position
  sqrtPrice : ℚ
  feeRate : ℚ
deriving DecidableEq, Repr

/-- `getTokenAmounts` from `utils.ts`: clamp `sqrtPrice` into the range,
then `x = L/clampedP - L/hi`, `y = L·clampedP - L·lo`. -/
def getTokenAmounts (liquidity : ℚ) (sqrtRange : ℚ × ℚ) (sqrtPrice : ℚ) :
    Balance :=
  let clampedSqrtPrice :=
    if sqrtPrice > sqrtRange.2 then sqrtRange.2
    else if sqrtPrice < sqrtRange.1 then sqrtRange.1
    else sqrtPrice
  { x := liquidity / clampedSqrtPrice - liquidity / sqrtRange.2
    y := liquidity * clampedSqrtPrice - liquidity * sqrtRange.1 }

/-- The derived `balance` getter of `ConcentratedLiquidityPosition`:
`getTokenAmounts({liquidity, sqrtRange}, pool.sqrtPrice)`. -/
def positionBalance (pos : Position) (pool : Pool) : Balance :=
  getTokenAmounts pos.liquidity pos.sqrtRange pool.sqrtPrice

/-- The membership test of `getPositionsInRange`:
`DOWN`: `sqrtPrice > lo && sqrtPrice <= hi`;
otherwise (`UP`): `sqrtPrice >= lo && sqrtPrice < hi`. -/
def inRangeB (dir : Direction) (sqrtPrice : ℚ) (sqrtRange : ℚ × ℚ) : Bool :=
  match dir with
  | .DOWN => sqrtPrice > sqrtRange.1 && sqrtPrice ≤ sqrtRange.2
  | .UP => sqrtPrice ≥ sqrtRange.1 && sqrtPrice < sqrtRange.2

/-- `getPositionsInRange(dir)`: filter the position map by `inRangeB`. -/
def getPositionsInRange (pool : Pool) (dir : Direction) : List Position :=
  pool.positions.filter (fun pos => inRangeB dir pool.sqrtPrice pos.sqrtRange)

/-- `getLiquidityInCurrentRange(dir)`: `reduce`-style left fold of
`liquidity + position.liquidity` over `getPositionsInRange(dir)`, seed 0. -/
def getLiquidityInCurrentRange (pool : Pool) (dir : Direction) : ℚ :=
  (getPositionsInRange pool dir).foldl
    (fun liquidity position => liquidity + position.liquidity) 0

/-- The reducer callback of `getCurrentRange`: a `null` accumulator is
replaced by the first range, afterwards the accumulator is intersected
componentwise (`[max lo lo', min hi hi']`). -/
def rangeIntersect (currentRange : Option (ℚ × ℚ)) (range : ℚ × ℚ) :
    Option (ℚ × ℚ) :=
  match currentRange with
  | none => some range
  | some c => some (max c.1 range.1, min c.2 range.2)

/-- `getCurrentRange(dir)`: fold the in-range positions' ranges with
`rangeIntersect` starting from `null`; `none` models the
"Out of range, no liquidity." throw. -/
def getCurrentRange (pool : Pool) (dir : Direction) : Option (ℚ × ℚ) :=
  ((getPositionsInRange pool dir).map
    (fun position => position.sqrtRange)).foldl rangeIntersect none

/-- `getDInvSqrtPrice`: `-dSqrtPrice / (sqrtPrice² + sqrtPrice·dSqrtPrice)`. -/
def getDInvSqrtPrice (sqrtPrice dSqrtPrice : ℚ) : ℚ :=
  -dSqrtPrice / (sqrtPrice ^ 2 + sqrtPrice * dSqrtPrice)

/-- `getDSqrtPrice`: `-dInvSqrtPrice · (sqrtPrice² / (1 + dInvSqrtPrice·sqrtPrice))`. -/
def getDSqrtPrice (sqrtPrice dInvSqrtPrice : ℚ) : ℚ :=
  -dInvSqrtPrice * (sqrtPrice ^ 2 / (1 + dInvSqrtPrice * sqrtPrice))

/-- `addFeesToPositions`: every position passing the directional membership
test at the current price gains `(liquidity_i / totalLiquidity) · feesToSplit`
on the chosen token; other positions are untouched. -/
def addFeesToPositions (pool : Pool) (feesToSplit totalLiquidity : ℚ)
    (token : Token) (direction : Direction) : Pool :=
  { pool with
    positions := pool.positions.map (fun position =>
      if inRangeB direction pool.sqrtPrice position.sqrtRange then
        let feesForPosition := position.liquidity / totalLiquidity * feesToSplit
        match token with
        | .x => { position with
                  rewards := { position.rewards with
                               x := position.rewards.x + feesForPosition } }
        | .y => { position with
                  rewards := { position.rewards with
                               y := position.rewards.y + feesForPosition } }
      else position) }

/-- `exitPosition(id)`: unknown id throws "Position doesn't exist" leaving
the pool untouched; otherwise the position is removed from the map and its
current balance plus rewards is returned componentwise. -/
def exitPosition (pool : Pool) (i : ℕ) : Except PoolError Balance × Pool :=
  match pool.positions.find? (fun pos => pos.id = i) with
  | none => (.error .notFound, pool)
  | some position =>
    (.ok { x := (positionBalance position pool).x + position.rewards.x
           y := (positionBalance position pool).y + position.rewards.y },
     { pool with positions := pool.positions.filter (fun pos => pos.id ≠ i) })

/-- One committed iteration of the `sellY` loop body: computes the segment
quantities from the pool state and remaining `dY`, distributes the segment
fee, advances `sqrtPrice`.  Returns the mutated pool together with
`(dYPartial, dXPartial)` of the segment. -/
def sellYSeg (pool : Pool) (fees dY : ℚ) (currentRange : ℚ × ℚ) :
    Pool × ℚ × ℚ :=
  let liquidity := getLiquidityInCurrentRange pool .UP
  let dSqrtPrice := min (dY / liquidity) (currentRange.2 - pool.sqrtPrice)
  let dYSeg := dSqrtPrice * liquidity
  let dXSeg := liquidity * getDInvSqrtPrice pool.sqrtPrice dSqrtPrice
  let feesSeg := fees * dYSeg / dY
  let pool1 := addFeesToPositions pool feesSeg liquidity .y .UP
  ({ pool1 with sqrtPrice := pool1.sqrtPrice + dSqrtPrice }, dYSeg, dXSeg)

/-- The `while (dY > 0)` loop of `sellY`, with fuel. -/
def sellYGo (fees : ℚ) : ℕ → Pool → ℚ → ℚ →
    Option (Except PoolError ℚ × Pool)
  | 0, _, _, _ => none
  | fuel + 1, pool, dY, dX =>
    if dY > 0 then
      match getCurrentRange pool .UP with
      | none => some (.error .outOfRange, pool)
      | some currentRange =>
        if getLiquidityInCurrentRange pool .UP = 0 then
          some (.error .insufficientLiquidity, pool)
        else
          let s := sellYSeg pool fees dY currentRange
          sellYGo fees fuel s.1 (dY - s.2.1) (dX + s.2.2)
    else some (.ok (-dX), pool)

/-- `sellY(yWithFees)`: rejects non-positive amounts, takes the fee up
front, then walks segments until the fee-exclusive amount is exhausted. -/
def sellY (fuel : ℕ) (pool : Pool) (yWithFees : ℚ) :
    Option (Except PoolError ℚ × Pool) :=
  if yWithFees ≤ 0 then some (.error .invalidArgument, pool)
  else
    let fees := yWithFees * pool.feeRate
    sellYGo fees fuel pool (yWithFees - fees) 0

/-- One committed iteration of the `buyY` loop body. -/
def buyYSeg (pool : Pool) (dY : ℚ) (currentRange : ℚ × ℚ) : Pool × ℚ × ℚ :=
  let liquidity := getLiquidityInCurrentRange pool .DOWN
  let dSqrtPrice := max (dY / liquidity) (currentRange.1 - pool.sqrtPrice)
  let dYSeg := dSqrtPrice * liquidity
  let dXSeg := liquidity * getDInvSqrtPrice pool.sqrtPrice dSqrtPrice
  let feesSeg := dXSeg / (1 - pool.feeRate) - dXSeg
  let pool1 := addFeesToPositions pool feesSeg liquidity .x .DOWN
  ({ pool1 with sqrtPrice := pool1.sqrtPrice + dSqrtPrice }, dYSeg, dXSeg + feesSeg)

/-- The `while (dY < 0)` loop of `buyY`, with fuel.  The accumulated `dX`
already includes each segment's fee, as in the source
(`dX += dXPartial + partialFees`). -/
def buyYGo : ℕ → Pool → ℚ → ℚ → Option (Except PoolError ℚ × Pool)
  | 0, _, _, _ => none
  | fuel + 1, pool, dY, dX =>
    if dY < 0 then
      match getCurrentRange pool .DOWN with
      | none => some (.error .outOfRange, pool)
      | some currentRange =>
        if getLiquidityInCurrentRange pool .DOWN = 0 then
          some (.error .insufficientLiquidity, pool)
        else
          let s := buyYSeg pool dY currentRange
          buyYGo fuel s.1 (dY - s.2.1) (dX + s.2.2)
    else some (.ok dX, pool)

/-- `buyY(yDesired)`: rejects non-positive amounts, then walks segments
downward until the desired amount is produced. -/
def buyY (fuel : ℕ) (pool : Pool) (yDesired : ℚ) :
    Option (Except PoolError ℚ × Pool) :=
  if yDesired ≤ 0 then some (.error .invalidArgument, pool)
  else buyYGo fuel pool (-yDesired) 0

/-- One committed iteration of the `sellX` loop body. -/
def sellXSeg (pool : Pool) (fees dX : ℚ) (currentRange : ℚ × ℚ) :
    Pool × ℚ × ℚ :=
  let liquidity := getLiquidityInCurrentRange pool .DOWN
  let dSqrtPrice := max (getDSqrtPrice pool.sqrtPrice (dX / liquidity))
    (currentRange.1 - pool.sqrtPrice)
  let dYSeg := dSqrtPrice * liquidity
  let dXSeg := liquidity * getDInvSqrtPrice pool.sqrtPrice dSqrtPrice
  let feesSeg := fees * dXSeg / dX
  let pool1 := addFeesToPositions pool feesSeg liquidity .x .DOWN
  ({ pool1 with sqrtPrice := pool1.sqrtPrice + dSqrtPrice }, dYSeg, dXSeg)

/-- The `while (dX > 0)` loop of `sellX`, with fuel. -/
def sellXGo (fees : ℚ) : ℕ → Pool → ℚ → ℚ →
    Option (Except PoolError ℚ × Pool)
  | 0, _, _, _ => none
  | fuel + 1, pool, dX, dY =>
    if dX > 0 then
      match getCurrentRange pool .DOWN with
      | none => some (.error .outOfRange, pool)
      | some currentRange =>
        if getLiquidityInCurrentRange pool .DOWN = 0 then
          some (.error .insufficientLiquidity, pool)
        else
          let s := sellXSeg pool fees dX currentRange
          sellXGo fees fuel s.1 (dX - s.2.2) (dY + s.2.1)
    else some (.ok (-dY), pool)

/-- `sellX(xWithFees)`. -/
def sellX (fuel : ℕ) (pool : Pool) (xWithFees : ℚ) :
    Option (Except PoolError ℚ × Pool) :=
  if xWithFees ≤ 0 then some (.error .invalidArgument, pool)
  else
    let fees := xWithFees * pool.feeRate
    sellXGo fees fuel pool (xWithFees - fees) 0

/-- One committed iteration of the `buyX` loop body. -/
def buyXSeg (pool : Pool) (dX : ℚ) (currentRange : ℚ × ℚ) : Pool × ℚ × ℚ :=
  let liquidity := getLiquidityInCurrentRange pool .UP
  let dSqrtPrice := min (getDSqrtPrice pool.sqrtPrice (dX / liquidity))
    (currentRange.2 - pool.sqrtPrice)
  let dYSeg := dSqrtPrice * liquidity
  let dXSeg := liquidity * getDInvSqrtPrice pool.sqrtPrice dSqrtPrice
  let feesSeg := dYSeg / (1 - pool.feeRate) - dYSeg
  let pool1 := addFeesToPositions pool feesSeg liquidity .y .UP
  ({ pool1 with sqrtPrice := pool1.sqrtPrice + dSqrtPrice }, dYSeg + feesSeg, dXSeg)

/-- The `while (dX < 0)` loop of `buyX`, with fuel. -/
def buyXGo : ℕ → Pool → ℚ → ℚ → Option (Except PoolError ℚ × Pool)
  | 0, _, _, _ => none
  | fuel + 1, pool, dX, dY =>
    if dX < 0 then
      match getCurrentRange pool .UP with
      | none => some (.error .outOfRange, pool)
      | some currentRange =>
        if getLiquidityInCurrentRange pool .UP = 0 then
          some (.error .insufficientLiquidity, pool)
        else
          let s := buyXSeg pool dX currentRange
          buyXGo fuel s.1 (dX - s.2.2) (dY + s.2.1)
    else some (.ok dY, pool)

/-- `buyX(xDesired)`. -/
def buyX (fuel : ℕ) (pool : Pool) (xDesired : ℚ) :
    Option (Except PoolError ℚ × Pool) :=
  if xDesired ≤ 0 then some (.error .invalidArgument, pool)
  else buyXGo fuel pool (-xDesired) 0

/-- One committed iteration of the `movePrice` loop body, for the still
outstanding `dSqrtPrice`.  Returns the mutated pool together with the
segment's `(dX, dY)` contributions (fee already netted in, as in the
source). -/
def movePriceSeg (pool : Pool) (dSqrtPrice : ℚ) (currentRange : ℚ × ℚ) :
    Pool × ℚ × ℚ :=
  let dir : Direction := if dSqrtPrice < 0 then .DOWN else .UP
  let liquidity := getLiquidityInCurrentRange pool dir
  let nextSqrtPrice :=
    if dSqrtPrice > 0 then min currentRange.2 (pool.sqrtPrice + dSqrtPrice)
    else max currentRange.1 (pool.sqrtPrice + dSqrtPrice)
  let dSqrtPriceSeg := nextSqrtPrice - pool.sqrtPrice
  let dYSeg := liquidity * dSqrtPriceSeg
  let dXSeg := liquidity * getDInvSqrtPrice pool.sqrtPrice dSqrtPriceSeg
  let feesSeg := (if dSqrtPrice > 0 then dYSeg else dXSeg) *
    (1 / (1 - pool.feeRate) - 1)
  let pool1 := addFeesToPositions pool feesSeg liquidity
    (if dSqrtPrice > 0 then .y else .x) dir
  ({ pool1 with sqrtPrice := nextSqrtPrice },
   dXSeg + (if dSqrtPrice > 0 then 0 else feesSeg),
   dYSeg + (if dSqrtPrice < 0 then 0 else feesSeg))

/-- The `while (dSqrtPrice !== 0)` loop of `movePrice`, with fuel. -/
def movePriceGo (sqrtTargetPrice : ℚ) : ℕ → Pool → ℚ → ℚ →
    Option (Except PoolError Balance × Pool)
  | 0, _, _, _ => none
  | fuel + 1, pool, dX, dY =>
    let dSqrtPrice := sqrtTargetPrice - pool.sqrtPrice
    if dSqrtPrice = 0 then some (.ok { x := dX, y := dY }, pool)
    else
      match getCurrentRange pool
        (if dSqrtPrice < 0 then .DOWN else .UP) with
      | none => some (.error .outOfRange, pool)
      | some currentRange =>
        if getLiquidityInCurrentRange pool
            (if dSqrtPrice < 0 then .DOWN else .UP) = 0 then
          some (.error .insufficientLiquidity, pool)
        else
          let s := movePriceSeg pool dSqrtPrice currentRange
          movePriceGo sqrtTargetPrice fuel s.1 (dX + s.2.1) (dY + s.2.2)

/-- `movePrice(targetPrice)`, embedded at the square-root level: the source
first computes `sqrtTargetPrice = Math.sqrt(targetPrice)` and from then on
only uses `sqrtTargetPrice`, which is the argument here.  A zero-distance
move returns `{x: 0, y: 0}` before entering the loop. -/
def movePrice (fuel : ℕ) (pool : Pool) (sqrtTargetPrice : ℚ) :
    Option (Except PoolError Balance × Pool) :=
  if pool.sqrtPrice = sqrtTargetPrice then
    some (.ok { x := 0, y := 0 }, pool)
  else movePriceGo sqrtTargetPrice fuel pool 0 0

/-- Total `rewards.y` held by the pool's positions. -/
def sumRewardsY (pool : Pool) : ℚ :=
  (pool.positions.map (fun pos => pos.rewards.y)).sum

/-- Total `rewards.x` held by the pool's positions. -/
def sumRewardsX (pool : Pool) : ℚ :=
  (pool.positions.map (fun pos => pos.rewards.x)).sum

/-- Auxiliary: the `reduce`-style fold of `getLiquidityInCurrentRange` is
the sum of the liquidities. -/
theorem foldl_add_liquidity (l : List Position) (init : ℚ) :
    l.foldl (fun liquidity position => liquidity + position.liquidity) init =
      init + (l.map Position.liquidity).sum := by
  induction l generalizing init with
  | nil => simp
  | cons p ps ih => simp [List.foldl_cons, ih, add_assoc]

/-- C10: `movePrice` to the current price returns a zero delta and leaves
the pool (price, position map, rewards) exactly unchanged, for every pool,
including one with no positions: the equality shortcut returns before any
range or liquidity check. -/
theorem movePrice_zero_distance (fuel : ℕ) (pool : Pool) :
    movePrice fuel pool pool.sqrtPrice = some (.ok { x := 0, y := 0 }, pool) := by
  simp [movePrice]

/-- C4: `getTokenAmounts` clamps the price into the range and applies the
closed forms `x = L/clampedP − L/hi`, `y = L·clampedP − L·lo`; at or above
the top of the range the position holds no X, at or below the bottom it
holds no Y. -/
theorem getTokenAmounts_clamps (L lo hi p : ℚ) (hL : 0 ≤ L) (hlo : 0 < lo)
    (hlohi : lo < hi) (hp : 0 < p) :
    getTokenAmounts L (lo, hi) p =
      { x := L / max lo (min p hi) - L / hi
        y := L * max lo (min p hi) - L * lo } ∧
    (hi ≤ p → (getTokenAmounts L (lo, hi) p).x = 0) ∧
    (p ≤ lo → (getTokenAmounts L (lo, hi) p).y = 0) := by
  have hclamp : (if p > hi then hi else if p < lo then lo else p) =
      max lo (min p hi) := by
    split_ifs with h1 h2
    · rw [min_eq_right h1.le, max_eq_right hlohi.le]
    · rw [min_eq_left (le_of_not_lt h1), max_eq_left h2.le]
    · rw [min_eq_left (le_of_not_lt h1), max_eq_right (le_of_not_lt h2)]
  have hmain : getTokenAmounts L (lo, hi) p =
      { x := L / max lo (min p hi) - L / hi
        y := L * max lo (min p hi) - L * lo } := by
    unfold getTokenAmounts
    simp only [hclamp]
  refine ⟨hmain, ?_, ?_⟩
  · intro h
    rw [hmain]
    simp only [min_eq_right h, max_eq_right hlohi.le, sub_self]
  · intro h
    rw [hmain]
    have h1 : min p hi = p := min_eq_left (h.trans hlohi.le)
    simp only [h1, max_eq_left h, sub_self]

/-- Witness for C4 at `L = 2`, range `(1, 2)`, price `3`. -/
theorem getTokenAmounts_clamps_witness :
    (getTokenAmounts 2 (1, 2) 3).x = 0 :=
  (getTokenAmounts_clamps 2 1 2 3 (by norm_num) (by norm_num) (by norm_num)
    (by norm_num)).2.1 (by norm_num)

/-- C5: `getDInvSqrtPrice` computes the exact identity
`Δ(1/√p) = 1/(√p+Δ√p) − 1/√p = −Δ√p / (√p·(√p+Δ√p))`, and `getDSqrtPrice`
is its exact algebraic inverse in both directions, in exact rational
arithmetic. -/
theorem dInvSqrtPrice_dSqrtPrice_inverse (p d i : ℚ) (hp : 0 < p)
    (hpd : 0 < p + d) (hi : 1 + i * p ≠ 0) :
    getDInvSqrtPrice p d = 1 / (p + d) - 1 / p ∧
    getDSqrtPrice p (getDInvSqrtPrice p d) = d ∧
    getDInvSqrtPrice p (getDSqrtPrice p i) = i := by
  have hp0 : p ≠ 0 := ne_of_gt hp
  have hpd0 : p + d ≠ 0 := ne_of_gt hpd
  have hmul : p * (p + d) ≠ 0 := mul_ne_zero hp0 hpd0
  have key : getDInvSqrtPrice p d = 1 / (p + d) - 1 / p := by
    unfold getDInvSqrtPrice
    rw [show p ^ 2 + p * d = p * (p + d) from by ring]
    rw [div_sub_div 1 1 hpd0 hp0]
    congr 1
    · ring
    · ring
  refine ⟨key, ?_, ?_⟩
  · have hq : 1 + getDInvSqrtPrice p d * p = p / (p + d) := by
      rw [key]
      field_simp
      ring
    unfold getDSqrtPrice
    rw [hq]
    rw [show p ^ 2 / (p / (p + d)) = p * (p + d) from by field_simp; ring]
    unfold getDInvSqrtPrice
    rw [show p ^ 2 + p * d = p * (p + d) from by ring]
    rw [neg_div, neg_neg, div_mul_cancel₀ _ hmul]
  · have hs : p + getDSqrtPrice p i = p / (1 + i * p) := by
      unfold getDSqrtPrice
      field_simp
      ring
    unfold getDInvSqrtPrice
    rw [show p ^ 2 + p * getDSqrtPrice p i = p * (p + getDSqrtPrice p i)
      from by ring, hs]
    unfold getDSqrtPrice
    have hA : p ^ 2 / (1 + i * p) ≠ 0 := div_ne_zero (pow_ne_zero 2 hp0) hi
    rw [neg_mul, neg_neg]
    rw [show p * (p / (1 + i * p)) = p ^ 2 / (1 + i * p) from by ring]
    rw [mul_div_assoc, div_self hA, mul_one]

/-- Witness for C5 at `p = 1`, `d = 1`, `i = 1`. -/
theorem dInvSqrtPrice_dSqrtPrice_inverse_witness :
    getDInvSqrtPrice 1 1 = 1 / (1 + 1) - 1 / 1 ∧
    getDSqrtPrice 1 (getDInvSqrtPrice 1 1) = 1 ∧
    getDInvSqrtPrice 1 (getDSqrtPrice 1 1) = 1 :=
  dInvSqrtPrice_dSqrtPrice_inverse 1 1 1 (by norm_num) (by norm_num)
    (by norm_num)

/-- Auxiliary: left `max`-folds commute with an outer `max`. -/
theorem foldl_max_assoc (l : List ℚ) (a b : ℚ) :
    l.foldl max (max a b) = max a (l.foldl max b) := by
  induction l generalizing a b with
  | nil => simp
  | cons c t ih => rw [List.foldl_cons, List.foldl_cons, max_assoc, ih]

/-- Auxiliary: left `min`-folds commute with an outer `min`. -/
theorem foldl_min_assoc (l : List ℚ) (a b : ℚ) :
    l.foldl min (min a b) = min a (l.foldl min b) := by
  induction l generalizing a b with
  | nil => simp
  | cons c t ih => rw [List.foldl_cons, List.foldl_cons, min_assoc, ih]

/-- Equation lemma: the fold of `getCurrentRange` replaces a `null`
accumulator by the first range. -/
theorem rangeIntersect_none (r : ℚ × ℚ) : rangeIntersect none r = some r := rfl

/-- Equation lemma: the fold of `getCurrentRange` intersects a non-`null`
accumulator componentwise. -/
theorem rangeIntersect_some (c r : ℚ × ℚ) :
    rangeIntersect (some c) r = some (max c.1 r.1, min c.2 r.2) := rfl

/-- Auxiliary: a left `max`-fold lands in the seed-extended list. -/
theorem foldl_max_mem (l : List ℚ) (a : ℚ) : l.foldl max a ∈ a :: l := by
  induction l generalizing a with
  | nil => simp
  | cons b t ih =>
    rw [List.foldl_cons]
    rcases List.mem_cons.mp (ih (max a b)) with h2 | h2
    · rw [h2]
      rcases max_choice a b with h3 | h3 <;> rw [h3]
      · exact List.mem_cons_self _ _
      · exact List.mem_cons_of_mem _ (List.mem_cons_self _ _)
    · exact List.mem_cons_of_mem _ (List.mem_cons_of_mem _ h2)

/-- Auxiliary: a left `max`-fold bounds the seed and every element. -/
theorem le_foldl_max (l : List ℚ) (a : ℚ) :
    ∀ c ∈ a :: l, c ≤ l.foldl max a := by
  induction l generalizing a with
  | nil => simp
  | cons b t ih =>
    intro c hc
    rw [List.foldl_cons]
    rcases List.mem_cons.mp hc with rfl | hc2
    · exact le_trans (le_max_left c b) (ih (max c b) _ (List.mem_cons_self _ _))
    · rcases List.mem_cons.mp hc2 with rfl | hc3
      · exact le_trans (le_max_right a c) (ih (max a c) _ (List.mem_cons_self _ _))
      · exact ih (max a b) c (List.mem_cons_of_mem _ hc3)

/-- Auxiliary: a left `min`-fold lands in the seed-extended list. -/
theorem foldl_min_mem (l : List ℚ) (a : ℚ) : l.foldl min a ∈ a :: l := by
  induction l generalizing a with
  | nil => simp
  | cons b t ih =>
    rw [List.foldl_cons]
    rcases List.mem_cons.mp (ih (min a b)) with h2 | h2
    · rw [h2]
      rcases min_choice a b with h3 | h3 <;> rw [h3]
      · exact List.mem_cons_self _ _
      · exact List.mem_cons_of_mem _ (List.mem_cons_self _ _)
    · exact List.mem_cons_of_mem _ (List.mem_cons_of_mem _ h2)

/-- Auxiliary: a left `min`-fold is below the seed and every element. -/
theorem foldl_min_le (l : List ℚ) (a : ℚ) :
    ∀ c ∈ a :: l, l.foldl min a ≤ c := by
  induction l generalizing a with
  | nil => simp
  | cons b t ih =>
    intro c hc
    rw [List.foldl_cons]
    rcases List.mem_cons.mp hc with rfl | hc2
    · exact le_trans (ih (min c b) _ (List.mem_cons_self _ _)) (min_le_left c b)
    · rcases List.mem_cons.mp hc2 with rfl | hc3
      · exact le_trans (ih (min a c) _ (List.mem_cons_self _ _)) (min_le_right a c)
      · exact ih (min a b) c (List.mem_cons_of_mem _ hc3)

/-- Auxiliary: once the accumulator of the `getCurrentRange` fold is
non-`null`, the fold computes the componentwise `max`/`min` of the bounds. -/
theorem foldl_rangeIntersect_some (l : List (ℚ × ℚ)) (c : ℚ × ℚ) :
    l.foldl rangeIntersect (some c) =
      some ((l.map Prod.fst).foldl max c.1, (l.map Prod.snd).foldl min c.2) := by
  induction l generalizing c with
  | nil => simp
  | cons r t ih => simp [List.foldl_cons, rangeIntersect_some, ih]

/-- C2: directional in-range membership is exactly the half-open interval
test (`[lo, hi)` moving up, `(lo, hi]` moving down) over the position map,
`getLiquidityInCurrentRange` is the sum of `liquidity` over exactly the
positions passing that test, and entering the same positions twice doubles
the reported liquidity. -/
theorem positionsInRange_membership_liquidity (pool : Pool) (pos : Position)
    (dir : Direction) :
    (pos ∈ getPositionsInRange pool .UP ↔
      pos ∈ pool.positions ∧ pos.sqrtRange.1 ≤ pool.sqrtPrice ∧
        pool.sqrtPrice < pos.sqrtRange.2) ∧
    (pos ∈ getPositionsInRange pool .DOWN ↔
      pos ∈ pool.positions ∧ pos.sqrtRange.1 < pool.sqrtPrice ∧
        pool.sqrtPrice ≤ pos.sqrtRange.2) ∧
    (getLiquidityInCurrentRange pool dir =
      ((getPositionsInRange pool dir).map Position.liquidity).sum) ∧
    (getLiquidityInCurrentRange
        { pool with positions := pool.positions ++ pool.positions } dir =
      2 * getLiquidityInCurrentRange pool dir) := by
  refine ⟨?_, ?_, ?_, ?_⟩
  · simp [getPositionsInRange, List.mem_filter, inRangeB, and_assoc]
  · simp [getPositionsInRange, List.mem_filter, inRangeB, and_assoc]
  · rw [getLiquidityInCurrentRange, foldl_add_liquidity, zero_add]
  · rw [getLiquidityInCurrentRange, getLiquidityInCurrentRange,
      foldl_add_liquidity, foldl_add_liquidity, zero_add, zero_add,
      getPositionsInRange, getPositionsInRange]
    simp only [List.filter_append, List.map_append, List.sum_append]
    rw [two_mul]

/-- C3: `getCurrentRange` fails exactly when no position passes the
directional membership test, and otherwise returns the tightest common
sub-range of all in-range positions' ranges: its lower bound is the maximum
of their lower bounds and its upper bound the minimum of their upper
bounds. -/
theorem currentRange_intersection (pool : Pool) (dir : Direction) :
    (getCurrentRange pool dir = none ↔ getPositionsInRange pool dir = []) ∧
    (∀ r : ℚ × ℚ, getCurrentRange pool dir = some r →
      (∃ pos ∈ getPositionsInRange pool dir, pos.sqrtRange.1 = r.1) ∧
      (∀ pos ∈ getPositionsInRange pool dir, pos.sqrtRange.1 ≤ r.1) ∧
      (∃ pos ∈ getPositionsInRange pool dir, pos.sqrtRange.2 = r.2) ∧
      (∀ pos ∈ getPositionsInRange pool dir, r.2 ≤ pos.sqrtRange.2)) := by
  unfold getCurrentRange
  cases hl : getPositionsInRange pool dir with
  | nil =>
    refine ⟨by simp, ?_⟩
    intro r hr
    simp at hr
  | cons q qs =>
    rw [List.map_cons, List.foldl_cons, rangeIntersect_none,
      foldl_rangeIntersect_some, List.map_map, List.map_map]
    refine ⟨by simp, ?_⟩
    intro r hr
    rw [← Option.some.inj hr]
    have hmax := foldl_max_mem (qs.map (Prod.fst ∘ fun position =>
      position.sqrtRange)) q.sqrtRange.1
    have hmin := foldl_min_mem (qs.map (Prod.snd ∘ fun position =>
      position.sqrtRange)) q.sqrtRange.2
    refine ⟨?_, ?_, ?_, ?_⟩
    · rcases List.mem_cons.mp hmax with h | h
      · exact ⟨q, List.mem_cons_self _ _, h.symm⟩
      · obtain ⟨pos, hpos, hval⟩ := List.mem_map.mp h
        exact ⟨pos, List.mem_cons_of_mem _ hpos, hval⟩
    · intro pos hpos
      rcases List.mem_cons.mp hpos with rfl | h
      · exact le_foldl_max _ _ _ (List.mem_cons_self _ _)
      · exact le_foldl_max _ _ _ (List.mem_cons_of_mem _
          (List.mem_map.mpr ⟨pos, h, rfl⟩))
    · rcases List.mem_cons.mp hmin with h | h
      · exact ⟨q, List.mem_cons_self _ _, h.symm⟩
      · obtain ⟨pos, hpos, hval⟩ := List.mem_map.mp h
        exact ⟨pos, List.mem_cons_of_mem _ hpos, hval⟩
    · intro pos hpos
      rcases List.mem_cons.mp hpos with rfl | h
      · exact foldl_min_le _ _ _ (List.mem_cons_self _ _)
      · exact foldl_min_le _ _ _ (List.mem_cons_of_mem _
          (List.mem_map.mpr ⟨pos, h, rfl⟩))

/-- Concrete pool for the C3 witness: two overlapping in-range positions
whose intersection is strictly tighter than either range. -/
def poolOverlap : Pool :=
  { positions := [⟨0, (1, 2), 1, ⟨0, 0⟩⟩, ⟨1, (3/2, 3), 1, ⟨0, 0⟩⟩]
    sqrtPrice := 3/2
    feeRate := 0 }

/-- Witness for C3: on `poolOverlap`, moving up, the current range
`(3/2, 2)` is the tightest common sub-range of `(1, 2)` and `(3/2, 3)`. -/
theorem currentRange_intersection_witness :
    (∃ pos ∈ getPositionsInRange poolOverlap .UP,
      pos.sqrtRange.1 = ((3/2 : ℚ), (2 : ℚ)).1) ∧
    (∀ pos ∈ getPositionsInRange poolOverlap .UP,
      pos.sqrtRange.1 ≤ ((3/2 : ℚ), (2 : ℚ)).1) ∧
    (∃ pos ∈ getPositionsInRange poolOverlap .UP,
      pos.sqrtRange.2 = ((3/2 : ℚ), (2 : ℚ)).2) ∧
    (∀ pos ∈ getPositionsInRange poolOverlap .UP,
      ((3/2 : ℚ), (2 : ℚ)).2 ≤ pos.sqrtRange.2) :=
  (currentRange_intersection poolOverlap .UP).2 (3/2, 2) (by
    rw [getCurrentRange,
      show getPositionsInRange poolOverlap .UP = poolOverlap.positions from by
        norm_num [getPositionsInRange, inRangeB, poolOverlap, List.filter]]
    rw [show poolOverlap.positions.map (fun position => position.sqrtRange) =
      [((1 : ℚ), (2 : ℚ)), ((3/2 : ℚ), (3 : ℚ))] from rfl]
    rw [List.foldl_cons, List.foldl_cons, rangeIntersect_none,
      rangeIntersect_some, List.foldl_nil]
    norm_num [max_def, min_def])

/-- C8: `exitPosition` on an unknown id fails with the NotFound error and
leaves the pool unchanged; on a known id it returns the position's balance
at the current price plus its accrued rewards, componentwise, and removes
exactly that position from the map, touching neither price nor fee rate. -/
theorem exitPosition_spec (pool : Pool) (i : ℕ) :
    ((∀ pos ∈ pool.positions, pos.id ≠ i) →
      exitPosition pool i = (.error .notFound, pool)) ∧
    (∀ pos ∈ pool.positions, pos.id = i →
      (∀ q ∈ pool.positions, q.id = i → q = pos) →
      (exitPosition pool i).1 = .ok
          { x := (positionBalance pos pool).x + pos.rewards.x
            y := (positionBalance pos pool).y + pos.rewards.y } ∧
      (∀ q : Position, q ∈ (exitPosition pool i).2.positions ↔
        q ∈ pool.positions ∧ q.id ≠ i) ∧
      (exitPosition pool i).2.sqrtPrice = pool.sqrtPrice ∧
      (exitPosition pool i).2.feeRate = pool.feeRate) := by
  constructor
  · intro h
    have hfind : pool.positions.find? (fun pos => pos.id = i) = none := by
      rw [List.find?_eq_none]
      intro x hx
      simpa using h x hx
    unfold exitPosition
    rw [hfind]
  · intro pos hmem hid huniq
    obtain ⟨q, hq⟩ : ∃ q, pool.positions.find? (fun pos => pos.id = i) =
        some q := by
      cases hfind : pool.positions.find? (fun pos => pos.id = i) with
      | none =>
        exact absurd (by simpa using hid)
          (by simpa using List.find?_eq_none.mp hfind pos hmem)
      | some q => exact ⟨q, rfl⟩
    have hq1 : q.id = i := by simpa using List.find?_some hq
    have hq2 : q ∈ pool.positions := List.mem_of_find?_eq_some hq
    have hqpos : q = pos := huniq q hq2 hq1
    unfold exitPosition
    rw [hq, hqpos]
    refine ⟨rfl, ?_, rfl, rfl⟩
    intro r
    simp [List.mem_filter]

/-- Concrete pool for the C8 witness: a single position with id 5. -/
def poolIdFive : Pool :=
  { positions := [⟨5, (1, 2), 1, ⟨0, 0⟩⟩], sqrtPrice := 1, feeRate := 0 }

/-- Witness for C8: exiting the unknown id 7 fails with NotFound and
leaves the pool untouched. -/
theorem exitPosition_spec_witness :
    exitPosition poolIdFive 7 = (.error .notFound, poolIdFive) :=
  (exitPosition_spec poolIdFive 7).1 (by
    intro pos hpos
    rcases List.mem_singleton.mp hpos with rfl
    simp)

/-- Concrete pool for C1: two adjacent unit-liquidity positions whose
square-root ranges `(1, 2)` and `(2, 3)` meet at 2, current `sqrtPrice` 1,
`feeRate` 1/2, so that `sellY 4` needs two segments. -/
def poolAdjacent : Pool :=
  { positions := [⟨0, (1, 2), 1, ⟨0, 0⟩⟩, ⟨1, (2, 3), 1, ⟨0, 0⟩⟩]
    sqrtPrice := 1
    feeRate := 1/2 }

/-- State of `poolAdjacent` after `sellY 4`: fee collected is
`4 × 1/2 = 2`, yet position 0 was awarded `2 × (1/2)` in segment one and
position 1 the full `2 × (1/1)` in segment two — total 3. -/
def poolAdjacentAfter : Pool :=
  { positions := [⟨0, (1, 2), 1, ⟨0, 1⟩⟩, ⟨1, (2, 3), 1, ⟨0, 2⟩⟩]
    sqrtPrice := 3
    feeRate := 1/2 }

/-- C1 (failing input): on `poolAdjacent`, `sellY 4` completes without
error, but the total increase of the positions' `rewards.y` is 3, not the
collected fee `4 × feeRate = 2`: the per-segment fee is computed against
the *remaining* amount (`fees * dYPartial / dY`), not the total, so a
two-segment sell distributes more than `a × f`. -/
theorem sellY_fee_total_exceeds_collected :
    sellY 10 poolAdjacent 4 = some (.ok (2/3), poolAdjacentAfter) ∧
    sumRewardsY poolAdjacentAfter - sumRewardsY poolAdjacent = 3 ∧
    (3 : ℚ) ≠ 4 * poolAdjacent.feeRate := by
  refine ⟨?_, by norm_num [sumRewardsY, poolAdjacent, poolAdjacentAfter],
    by norm_num [poolAdjacent]⟩
  norm_num [sellY, sellYGo, sellYSeg, getCurrentRange, getPositionsInRange,
    getLiquidityInCurrentRange, inRangeB, addFeesToPositions,
    getDInvSqrtPrice, rangeIntersect_none, rangeIntersect_some,
    poolAdjacent, poolAdjacentAfter, min_def, max_def, List.filter]

/-- Concrete pool for C9: one position with square-root range `(1/2, 2)`,
liquidity 1, `sqrtPrice` 1, `feeRate` 1/2. -/
def poolWide : Pool :=
  { positions := [⟨0, (1/2, 2), 1, ⟨0, 0⟩⟩], sqrtPrice := 1, feeRate := 1/2 }

/-- State of `poolWide` after `buyX 3`: the unguarded `getDSqrtPrice`
formula turns negative (`1 + (dX/L)·sqrtPrice = -2 < 0`), so the segment
moves the price *down* to `-1/2` and distributes a negative fee. -/
def poolWideAfter : Pool :=
  { positions := [⟨0, (1/2, 2), 1, ⟨0, -(3/2)⟩⟩], sqrtPrice := -(1/2)
    feeRate := 1/2 }

/-- C9 (failing input): `buyX 3` is a valid positive-amount call on
`poolWide`, completes without error, and *decreases* the position's
`rewards.y` from 0 to `-3/2` (while driving `sqrtPrice` negative):
rewards are not monotone under the public trade operations. -/
theorem buyX_rewards_decrease :
    (0 : ℚ) < 3 ∧
    buyX 10 poolWide 3 = some (.ok (-3), poolWideAfter) ∧
    sumRewardsY poolWideAfter < sumRewardsY poolWide := by
  refine ⟨by norm_num, ?_,
    by norm_num [sumRewardsY, poolWide, poolWideAfter]⟩
  norm_num [buyX, buyXGo, buyXSeg, getCurrentRange, getPositionsInRange,
    getLiquidityInCurrentRange, inRangeB, addFeesToPositions,
    getDInvSqrtPrice, getDSqrtPrice, rangeIntersect_none,
    rangeIntersect_some, poolWide, poolWideAfter, min_def, max_def,
    List.filter]

/-- Concrete pool for C6: a single unit-liquidity position around price 1
(square-root range `(10/11, 11/10)`, i.e. price range `(100/121, 121/100)`,
which covers `[1/1.1, 1.1]`), `sqrtPrice` 1, `feeRate` 0. -/
def poolNarrow : Pool :=
  { positions := [⟨0, (10/11, 11/10), 1, ⟨0, 0⟩⟩], sqrtPrice := 1
    feeRate := 0 }

/-- `poolNarrow` after its single downward segment was exhausted: the
price sits at the lower bound `10/11`. -/
def poolNarrowDown : Pool :=
  { positions := [⟨0, (10/11, 11/10), 1, ⟨0, 0⟩⟩], sqrtPrice := 10/11
    feeRate := 0 }

/-- `poolNarrow` after its single upward segment was exhausted: the price
sits at the upper bound `11/10`. -/
def poolNarrowUp : Pool :=
  { positions := [⟨0, (10/11, 11/10), 1, ⟨0, 0⟩⟩], sqrtPrice := 11/10
    feeRate := 0 }

/-- C6 (counterexample): `buyY 1` on `poolNarrow` pushes the price past
the position's lower boundary with no other liquidity present and fails —
but with the OutOfRange error ("Out of range, no liquidity." from
`getCurrentRange`), not the InsufficientLiquidity error ("Not enough
liquidity.") the claim names: once the price sits on the boundary no
position passes the downward membership test, so `getCurrentRange` throws
before the zero-liquidity check is ever reached. -/
theorem buyY_boundary_error_is_outOfRange :
    buyY 10 poolNarrow 1 = some (.error .outOfRange, poolNarrowDown) ∧
    PoolError.outOfRange ≠ PoolError.insufficientLiquidity := by
  refine ⟨?_, by decide⟩
  norm_num [buyY, buyYGo, buyYSeg, getCurrentRange, getPositionsInRange,
    getLiquidityInCurrentRange, inRangeB, addFeesToPositions,
    getDInvSqrtPrice, rangeIntersect_none, rangeIntersect_some,
    poolNarrow, poolNarrowDown, min_def, max_def, List.filter]

/-- Auxiliary: one committed `buyY` segment steps the loop to the mutated
pool. -/
theorem buyYGo_step (fuel : ℕ) (pool : Pool) (dY dX : ℚ) (cr : ℚ × ℚ)
    (h : dY < 0) (hcr : getCurrentRange pool .DOWN = some cr)
    (hliq : getLiquidityInCurrentRange pool .DOWN ≠ 0) :
    buyYGo (fuel + 1) pool dY dX =
      buyYGo fuel (buyYSeg pool dY cr).1 (dY - (buyYSeg pool dY cr).2.1)
        (dX + (buyYSeg pool dY cr).2.2) := by
  simp only [buyYGo]
  rw [if_pos h, hcr]
  show (if getLiquidityInCurrentRange pool .DOWN = 0 then _ else _) = _
  rw [if_neg hliq]

/-- Auxiliary: the `buyY` loop raises the OutOfRange error, keeping the
current pool state, when no position passes the downward membership test. -/
theorem buyYGo_outOfRange (fuel : ℕ) (pool : Pool) (dY dX : ℚ)
    (h : dY < 0) (hcr : getCurrentRange pool .DOWN = none) :
    buyYGo (fuel + 1) pool dY dX = some (.error .outOfRange, pool) := by
  simp only [buyYGo]
  rw [if_pos h, hcr]

/-- Auxiliary: `addFeesToPositions` only touches `rewards`: ids, ranges
and liquidities of the position map, the price and the fee rate are all
preserved. -/
theorem addFeesToPositions_shape (pool : Pool) (fs tl : ℚ) (tk : Token)
    (d : Direction) :
    (addFeesToPositions pool fs tl tk d).positions.map
        (fun q => (q.id, q.sqrtRange, q.liquidity)) =
      pool.positions.map (fun q => (q.id, q.sqrtRange, q.liquidity)) ∧
    (addFeesToPositions pool fs tl tk d).sqrtPrice = pool.sqrtPrice ∧
    (addFeesToPositions pool fs tl tk d).feeRate = pool.feeRate := by
  refine ⟨?_, rfl, rfl⟩
  rw [addFeesToPositions, List.map_map]
  apply List.map_congr_left
  intro pos hpos
  by_cases h : inRangeB d pool.sqrtPrice pos.sqrtRange <;> cases tk <;>
    simp [h, Function.comp]

/-- Auxiliary: a committed `buyY` segment only moves the price (to the
capped next price) and rewrites rewards; the position map's ids, ranges
and liquidities and the fee rate are preserved. -/
theorem buyYSeg_shape (pool : Pool) (dY : ℚ) (cr : ℚ × ℚ) :
    (buyYSeg pool dY cr).1.positions.map
        (fun q => (q.id, q.sqrtRange, q.liquidity)) =
      pool.positions.map (fun q => (q.id, q.sqrtRange, q.liquidity)) ∧
    (buyYSeg pool dY cr).1.sqrtPrice = pool.sqrtPrice +
      max (dY / getLiquidityInCurrentRange pool .DOWN)
        (cr.1 - pool.sqrtPrice) ∧
    (buyYSeg pool dY cr).1.feeRate = pool.feeRate := by
  refine ⟨?_, ?_, ?_⟩
  · exact (addFeesToPositions_shape pool _ _ .x .DOWN).1
  · rfl
  · rfl

/-- Auxiliary: downward membership fails for every position whose lower
bound is the current price, so `getCurrentRange(DOWN)` finds nothing. -/
theorem getCurrentRange_DOWN_at_lower (pool : Pool) (lo : ℚ)
    (hsp : pool.sqrtPrice = lo)
    (hall : ∀ q ∈ pool.positions, q.sqrtRange.1 = lo) :
    getCurrentRange pool .DOWN = none := by
  rw [getCurrentRange]
  suffices h : getPositionsInRange pool .DOWN = [] by rw [h]; rfl
  rw [getPositionsInRange, List.filter_eq_nil_iff]
  intro q hq
  simp [inRangeB, hsp, hall q hq]

/-- Parametrized single-position pool used by the amended C6 statement:
one position with the given id, square-root range, liquidity; fresh
rewards; the given price and fee rate. -/
def singlePool (pid : ℕ) (lo hi L p f : ℚ) : Pool :=
  { positions := [⟨pid, (lo, hi), L, ⟨0, 0⟩⟩], sqrtPrice := p, feeRate := f }

/-- C6 (amended): on a pool with a single position covering the price, a
`buyY` whose amount exceeds what the position can supply before the price
exits its lower boundary fails — with the OutOfRange
("Out of range, no liquidity.") error rather than silently clamping the
trade at the boundary; likewise `buyX 1/2` on the concrete
`[1/1.1, 1.1]`-style pool fails upward with the OutOfRange error. -/
theorem buy_past_boundary_outOfRange :
    (∀ (fuel pid : ℕ) (lo hi L p f a : ℚ), 0 < lo → lo < p → p ≤ hi →
      0 < L → (p - lo) * L < a →
      ∃ q, buyY (fuel + 2) (singlePool pid lo hi L p f) a =
        some (.error .outOfRange, q)) ∧
    buyX 10 poolNarrow (1/2) = some (.error .outOfRange, poolNarrowUp) := by
  constructor
  · intro fuel pid lo hi L p f a hlo hlop hphi hL ha
    have hcap : 0 < (p - lo) * L := mul_pos (by linarith) hL
    have ha0 : 0 < a := lt_trans hcap ha
    have hmemb : inRangeB .DOWN p (lo, hi) = true := by
      simp [inRangeB]
      exact ⟨hlop, hphi⟩
    have hpir : getPositionsInRange (singlePool pid lo hi L p f) .DOWN =
        [⟨pid, (lo, hi), L, ⟨0, 0⟩⟩] := by
      rw [getPositionsInRange]
      rw [show (singlePool pid lo hi L p f).positions =
        [(⟨pid, (lo, hi), L, ⟨0, 0⟩⟩ : Position)] from rfl]
      rw [List.filter_cons_of_pos (by exact hmemb), List.filter_nil]
    have hcr : getCurrentRange (singlePool pid lo hi L p f) .DOWN =
        some (lo, hi) := by
      rw [getCurrentRange, hpir]
      rfl
    have hliq : getLiquidityInCurrentRange (singlePool pid lo hi L p f)
        .DOWN = L := by
      rw [getLiquidityInCurrentRange, hpir]
      simp
    have hdsp : max (-a / getLiquidityInCurrentRange
        (singlePool pid lo hi L p f) .DOWN)
        (((lo, hi).1 : ℚ) - (singlePool pid lo hi L p f).sqrtPrice) =
        lo - p := by
      rw [hliq]
      show max (-a / L) (lo - p) = lo - p
      apply max_eq_right
      rw [div_le_iff₀ hL]
      have hflip : (lo - p) * L = -((p - lo) * L) := by ring
      linarith
    refine ⟨(buyYSeg (singlePool pid lo hi L p f) (-a) (lo, hi)).1, ?_⟩
    rw [buyY, if_neg (not_le.mpr ha0)]
    rw [show fuel + 2 = fuel + 1 + 1 from rfl]
    rw [buyYGo_step (fuel + 1) _ _ _ (lo, hi) (by linarith) hcr
      (by rw [hliq]; exact ne_of_gt hL)]
    have hsp1 : (buyYSeg (singlePool pid lo hi L p f) (-a) (lo, hi)).1.sqrtPrice
        = lo := by
      rw [(buyYSeg_shape _ _ _).2.1, hdsp]
      show p + (lo - p) = lo
      ring
    have hall1 : ∀ q ∈ (buyYSeg (singlePool pid lo hi L p f) (-a)
        (lo, hi)).1.positions, q.sqrtRange.1 = lo := by
      intro q hq
      have hmm : (q.id, q.sqrtRange, q.liquidity) ∈
          (singlePool pid lo hi L p f).positions.map
            (fun q => (q.id, q.sqrtRange, q.liquidity)) := by
        rw [← (buyYSeg_shape (singlePool pid lo hi L p f) (-a) (lo, hi)).1]
        exact List.mem_map_of_mem _ hq
      rw [show (singlePool pid lo hi L p f).positions.map
          (fun q => (q.id, q.sqrtRange, q.liquidity)) =
          [(pid, (lo, hi), L)] from rfl] at hmm
      have := List.mem_singleton.mp hmm
      have hsr : q.sqrtRange = (lo, hi) := by
        have h2 := congrArg (fun t => t.2.1) this
        simpa using h2
      rw [hsr]
    have hdY1 : -a - (buyYSeg (singlePool pid lo hi L p f) (-a)
        (lo, hi)).2.1 < 0 := by
      rw [show (buyYSeg (singlePool pid lo hi L p f) (-a) (lo, hi)).2.1 =
        max (-a / getLiquidityInCurrentRange (singlePool pid lo hi L p f)
          .DOWN) (((lo, hi).1 : ℚ) - (singlePool pid lo hi L p f).sqrtPrice)
          * getLiquidityInCurrentRange (singlePool pid lo hi L p f) .DOWN
        from rfl, hdsp, hliq]
      have hflip : (lo - p) * L = -((p - lo) * L) := by ring
      linarith
    exact buyYGo_outOfRange fuel _ _ _ hdY1
      (getCurrentRange_DOWN_at_lower _ lo hsp1 hall1)
  · norm_num [buyX, buyXGo, buyXSeg, getCurrentRange, getPositionsInRange,
      getLiquidityInCurrentRange, inRangeB, addFeesToPositions,
      getDInvSqrtPrice, getDSqrtPrice, rangeIntersect_none,
      rangeIntersect_some, poolNarrow, poolNarrowUp, min_def, max_def,
      List.filter]

/-- Witness for the amended C6 at the concrete narrow pool, amount 1. -/
theorem buy_past_boundary_outOfRange_witness :
    ∃ q, buyY (0 + 2) (singlePool 0 (10/11) (11/10) 1 1 0) 1 =
      some (.error .outOfRange, q) :=
  buy_past_boundary_outOfRange.1 0 0 (10/11) (11/10) 1 1 0 1 (by norm_num)
    (by norm_num) (by norm_num) (by norm_num) (by norm_num)

/-- Concrete pool for C7: one position `(1, 2)`, liquidity 1, price 1,
`feeRate` 1/2, so `sellY 4` commits one full segment (price 1 → 2, reward
1 to the position) and then fails. -/
def poolSingleSeg : Pool :=
  { positions := [⟨0, (1, 2), 1, ⟨0, 0⟩⟩], sqrtPrice := 1, feeRate := 1/2 }

/-- `poolSingleSeg` as left behind by the failing `sellY 4`: segment one's
price move and reward distribution remain applied. -/
def poolSingleSegAfter : Pool :=
  { positions := [⟨0, (1, 2), 1, ⟨0, 1⟩⟩], sqrtPrice := 2, feeRate := 1/2 }

/-- C7: after a committed segment, the trade loops continue from the
mutated pool only, so whatever error state a later segment produces is
returned as-is — the pre-call pool is never restored (shown for the
`sellY` and `buyX` walks, whose loop bodies the other operations mirror);
concretely, the failing `sellY 4` on `poolSingleSeg` returns the error
together with the pool mutated by segment one (price advanced, reward
paid), not the original pool. -/
theorem trade_no_rollback :
    (∀ (fuel : ℕ) (pool : Pool) (fees dY dX : ℚ) (cr : ℚ × ℚ)
      (e : PoolError) (q : Pool),
      0 < dY → getCurrentRange pool .UP = some cr →
      getLiquidityInCurrentRange pool .UP ≠ 0 →
      sellYGo fees fuel (sellYSeg pool fees dY cr).1
        (dY - (sellYSeg pool fees dY cr).2.1)
        (dX + (sellYSeg pool fees dY cr).2.2) = some (.error e, q) →
      sellYGo fees (fuel + 1) pool dY dX = some (.error e, q)) ∧
    (∀ (fuel : ℕ) (pool : Pool) (dX dY : ℚ) (cr : ℚ × ℚ)
      (e : PoolError) (q : Pool),
      dX < 0 → getCurrentRange pool .UP = some cr →
      getLiquidityInCurrentRange pool .UP ≠ 0 →
      buyXGo fuel (buyXSeg pool dX cr).1 (dX - (buyXSeg pool dX cr).2.2)
        (dY + (buyXSeg pool dX cr).2.1) = some (.error e, q) →
      buyXGo (fuel + 1) pool dX dY = some (.error e, q)) ∧
    (sellY 10 poolSingleSeg 4 =
        some (.error .outOfRange, poolSingleSegAfter) ∧
      poolSingleSegAfter.sqrtPrice ≠ poolSingleSeg.sqrtPrice ∧
      sumRewardsY poolSingleSegAfter ≠ sumRewardsY poolSingleSeg) := by
  refine ⟨?_, ?_, ?_, ?_, ?_⟩
  · intro fuel pool fees dY dX cr e q h hcr hliq hcont
    simp only [sellYGo]
    rw [if_pos h, hcr]
    show (if getLiquidityInCurrentRange pool .UP = 0 then _ else _) = _
    rw [if_neg hliq]
    exact hcont
  · intro fuel pool dX dY cr e q h hcr hliq hcont
    simp only [buyXGo]
    rw [if_pos h, hcr]
    show (if getLiquidityInCurrentRange pool .UP = 0 then _ else _) = _
    rw [if_neg hliq]
    exact hcont
  · norm_num [sellY, sellYGo, sellYSeg, getCurrentRange,
      getPositionsInRange, getLiquidityInCurrentRange, inRangeB,
      addFeesToPositions, getDInvSqrtPrice, rangeIntersect_none,
      rangeIntersect_some, poolSingleSeg, poolSingleSegAfter, min_def,
      max_def, List.filter]
  · norm_num [poolSingleSeg, poolSingleSegAfter]
  · norm_num [sumRewardsY, poolSingleSeg, poolSingleSegAfter]

/-- Witness for C7: the no-rollback step applied to the concrete failing
trade — after segment one of `sellY 4` the continuation errors out of
range, and the whole loop returns that error with the mutated pool. -/
theorem trade_no_rollback_witness :
    sellYGo 2 (9 + 1) poolSingleSeg 2 0 =
      some (.error .outOfRange, poolSingleSegAfter) :=
  trade_no_rollback.1 9 poolSingleSeg 2 2 0 (1, 2) .outOfRange
    poolSingleSegAfter (by norm_num)
    (by norm_num [getCurrentRange, getPositionsInRange, inRangeB,
      rangeIntersect_none, poolSingleSeg, List.filter])
    (by norm_num [getLiquidityInCurrentRange, getPositionsInRange,
      inRangeB, poolSingleSeg, List.filter])
    (by norm_num [sellYGo, sellYSeg, getCurrentRange, getPositionsInRange,
      getLiquidityInCurrentRange, inRangeB, addFeesToPositions,
      getDInvSqrtPrice, rangeIntersect_none, rangeIntersect_some,
      poolSingleSeg, poolSingleSegAfter, min_def, max_def, List.filter])
